import Mathlib

/-!
Verification development for the `tillicum` repository.

The repository ships a single source file, `setup.py`, a setuptools
packaging manifest.  Its public documentation describes a supervisor /
worker framework for long-running network service daemons (graceful
zero-downtime restarts, listener-socket handoff, worker health tracking).
The first part of this file embeds the packaging manifest; the second
part models the supervisor / restart-coordinator state machine from the
specification, since that code is not present in the repository.
-/

namespace Tillicum

/-! ## Part 1: the packaging manifest (`setup.py`) -/

/-- The keyword arguments passed to the `setup()` call in `setup.py`. -/
structure SetupArgs where
  name : String
  version : String
  packages : List String
  test_suite : String
  tests_require : List String
  install_requires : List String
  deriving Repr, DecidableEq

/-- The files present in the repository: `setup.py` is the only one. -/
def repositoryFiles : List String := ["setup.py"]

/-- Behaviour of setuptools' `find_packages()` (an external collaborator of
`setup.py`): it returns every directory of the source tree that contains an
`__init__.py` marker, i.e. every importable package directory. -/
def find_packages (files : List String) : List String :=
  (files.filterMap (fun f =>
    if "/__init__.py".data.isSuffixOf f.data then
      some (String.mk (f.data.take (f.data.length - 12)))
    else none)).dedup

/-- The `setup()` call of `src/setup.py`, lines 10-17, with
`find_packages()` evaluated against the repository's files. -/
def tillicumSetup : SetupArgs :=
  { name := "tillicum"
  , version := "0.8.1"
  , packages := find_packages repositoryFiles
  , test_suite := "nose.collector"
  , tests_require := ["nose", "mock", "coverage"]
  , install_requires := ["ostrich"] }

/-! ## Part 2: the supervisor / restart-coordinator model

Modelled from the spec: the repository contains no implementation source
besides the manifest, so the Supervisor, RestartCoordinator, WorkerHandle,
ListenerSet and HealthMonitor components described by the specification are
reconstructed here from the specification text (sections 3-5 and 7). -/

/-- Modelled from the spec: the worker lifecycle states of a WorkerHandle
("starting", "ready", "draining", "stopped", "crashed"). -/
inductive WState where
  | starting
  | ready
  | draining
  | stopped
  | crashed
  deriving Repr, DecidableEq

/-- Modelled from the spec: a WorkerHandle — an opaque identity, the
RestartEpoch it belongs to, and its lifecycle state. -/
structure Worker where
  id : Nat
  epoch : Nat
  wstate : WState
  deriving Repr, DecidableEq

/-- Modelled from the spec: static supervisor configuration — the
configured minimum worker count and the target worker count of the pool. -/
structure Config where
  minWorkers : Nat
  targetCount : Nat
  deriving Repr, DecidableEq

/-- Modelled from the spec: the RestartCoordinator state machine
(`idle → spawning_new → waiting_ready → draining_old → terminating_old →
idle`), an explicit tagged variant carrying the new RestartEpoch. -/
inductive CoordState where
  | idle
  | spawning_new (newEpoch : Nat)
  | waiting_ready (newEpoch : Nat)
  | draining_old (newEpoch : Nat)
  | terminating_old (newEpoch : Nat)
  deriving Repr, DecidableEq

/-- Modelled from the spec: the supervisor's state — the pool of
WorkerHandles, the current (completed) RestartEpoch, the
RestartCoordinator's state, and a counter for fresh worker identities. -/
structure SupState where
  workers : List Worker
  currentEpoch : Nat
  coord : CoordState
  nextId : Nat
  deriving Repr, DecidableEq

/-- Modelled from the spec: the error taxonomy entries surfaced by a
`reload()` request. -/
inductive RestartError where
  | restartInProgress
  deriving Repr, DecidableEq

/-- The workers of epoch `e` currently in the pool. -/
def epochWorkers (s : SupState) (e : Nat) : List Worker :=
  s.workers.filter (fun w => w.epoch == e)

/-- Every worker of epoch `e` has reported ready. -/
def allEpochReady (s : SupState) (e : Nat) : Bool :=
  (epochWorkers s e).all (fun w => w.wstate == .ready)

/-- The number of workers currently in state `ready`. -/
def readyCount (s : SupState) : Nat :=
  s.workers.countP (fun w => w.wstate == .ready)

/-- Modelled from the spec: `reload()` — only one restart may be in flight
at a time; a request while the coordinator is not `idle` is rejected with
`RestartInProgress`; otherwise it allocates a new RestartEpoch =
previous + 1 and enters `spawning_new`. -/
def reload (s : SupState) : Except RestartError SupState :=
  match s.coord with
  | .idle => .ok { s with coord := .spawning_new (s.currentEpoch + 1) }
  | _ => .error .restartInProgress

/-- A new-epoch worker with identity `i` reports `ready`: transition it
from `starting` to `ready`. -/
def markReady (i e : Nat) (w : Worker) : Worker :=
  if w.id == i && w.epoch == e && w.wstate == .starting then
    { w with wstate := .ready } else w

/-- `requestDrain()` on an old-epoch worker: transition a `ready` worker
that is not part of the new epoch `e` to `draining`. -/
def markDraining (e : Nat) (w : Worker) : Worker :=
  if w.epoch != e && w.wstate == .ready then
    { w with wstate := .draining } else w

/-- An old draining worker finishes its in-flight connections and reaches
`stopped`. -/
def markStopped (i e : Nat) (w : Worker) : Worker :=
  if w.id == i && w.epoch != e && w.wstate == .draining then
    { w with wstate := .stopped } else w

/-- An old draining worker hits its drain timeout: forced `terminate`,
marked `crashed`. -/
def markCrashed (i e : Nat) (w : Worker) : Worker :=
  if w.id == i && w.epoch != e && w.wstate == .draining then
    { w with wstate := .crashed } else w

/-- Modelled from the spec: the atomic control-thread events that drive a
restart operation (section 4.4 and the readiness/heartbeat protocol). -/
inductive Event where
  | trigger
  | spawnNew
  | workerReady (i : Nat)
  | beginDrainOld
  | readinessTimeout
  | requestDrainOld
  | workerStopped (i : Nat)
  | workerDrainTimeout (i : Nat)
  | finishRestart
  deriving Repr, DecidableEq

/-- Modelled from the spec: one step of the restart state machine.
`none` means the event is not enabled in the current state.
  * `trigger`: a reload request (rejected while a restart is in flight).
  * `spawnNew`: spawns a full replacement pool (target worker count) in the
    new epoch, all `starting`, sharing the existing ListenerSet export.
  * `workerReady i`: a new-epoch worker reports `ready`.
  * `beginDrainOld`: proceeds to `draining_old` only once every new-epoch
    worker has reported `ready`.
  * `readinessTimeout`: some new worker failed to become ready within the
    configured timeout — the partially spawned new epoch is terminated and
    reaped, and the coordinator returns to `idle` on the old epoch.
  * `requestDrainOld`: calls `requestDrain()` on every old-epoch worker.
  * `workerStopped i` / `workerDrainTimeout i`: an old draining worker
    finishes its in-flight connections, or hits its drain timeout and is
    forcibly terminated.
  * `finishRestart`: once every old-epoch worker is terminal, reaps all
    old-epoch handles and completes the restart. -/
def step (cfg : Config) (ev : Event) (s : SupState) : Option SupState :=
  match ev with
  | .trigger => (reload s).toOption
  | .spawnNew =>
    match s.coord with
    | .spawning_new e =>
      some { s with
        workers := s.workers ++ (List.range cfg.targetCount).map
          (fun i => ⟨s.nextId + i, e, .starting⟩)
        nextId := s.nextId + cfg.targetCount
        coord := .waiting_ready e }
    | _ => none
  | .workerReady i =>
    match s.coord with
    | .waiting_ready e =>
      some { s with workers := s.workers.map (markReady i e) }
    | _ => none
  | .beginDrainOld =>
    match s.coord with
    | .waiting_ready e =>
      if allEpochReady s e then some { s with coord := .draining_old e }
      else none
    | _ => none
  | .readinessTimeout =>
    match s.coord with
    | .waiting_ready e =>
      if allEpochReady s e then none
      else some { s with
        workers := s.workers.filter (fun w => w.epoch != e)
        coord := .idle }
    | _ => none
  | .requestDrainOld =>
    match s.coord with
    | .draining_old e =>
      some { s with
        workers := s.workers.map (markDraining e)
        coord := .terminating_old e }
    | _ => none
  | .workerStopped i =>
    match s.coord with
    | .terminating_old e =>
      some { s with workers := s.workers.map (markStopped i e) }
    | _ => none
  | .workerDrainTimeout i =>
    match s.coord with
    | .terminating_old e =>
      some { s with workers := s.workers.map (markCrashed i e) }
    | _ => none
  | .finishRestart =>
    match s.coord with
    | .terminating_old e =>
      if s.workers.all (fun w =>
          w.epoch == e || w.wstate == .stopped || w.wstate == .crashed) then
        some { s with
          workers := s.workers.filter (fun w => w.epoch == e)
          currentEpoch := e
          coord := .idle }
      else none
    | _ => none

/-- An event that is not enabled leaves the state unchanged. -/
def stepOr (cfg : Config) (s : SupState) (ev : Event) : SupState :=
  (step cfg ev s).getD s

/-- Run a sequence of control-thread events. -/
def run (cfg : Config) (s : SupState) (evs : List Event) : SupState :=
  evs.foldl (stepOr cfg) s

/-- Modelled from the spec: the steady state after startup — the supervisor
has bound the ListenerSet, spawned epoch 0 at the configured worker count,
and every initial worker has reported ready. -/
def initState (cfg : Config) : SupState :=
  { workers := (List.range cfg.targetCount).map (fun i => ⟨i, 0, .ready⟩)
  , currentEpoch := 0
  , coord := .idle
  , nextId := cfg.targetCount }

/-- States reachable from the healthy initial state by restart events. -/
def Reachable (cfg : Config) (s : SupState) : Prop :=
  ∃ evs : List Event, run cfg (initState cfg) evs = s

/-- Worker identities are distinct and below the fresh-id counter. -/
def idsOk (s : SupState) : Prop :=
  (s.workers.map Worker.id).Nodup ∧ ∀ w ∈ s.workers, w.id < s.nextId

/-- The coordinator-state-indexed part of the inductive invariant: in each
coordinator state, which epochs are live, the lifecycle states their
workers may occupy, and the pool sizes. -/
def invCoord (cfg : Config) (s : SupState) : CoordState → Prop
  | .idle =>
      (∀ w ∈ s.workers, w.epoch = s.currentEpoch ∧ w.wstate = .ready)
      ∧ s.workers.length = cfg.targetCount
  | .spawning_new e =>
      e = s.currentEpoch + 1
      ∧ (∀ w ∈ s.workers, w.epoch = s.currentEpoch ∧ w.wstate = .ready)
      ∧ s.workers.length = cfg.targetCount
  | .waiting_ready e =>
      e = s.currentEpoch + 1
      ∧ (∀ w ∈ s.workers,
          (w.epoch = s.currentEpoch ∧ w.wstate = .ready)
          ∨ (w.epoch = e ∧ (w.wstate = .starting ∨ w.wstate = .ready)))
      ∧ (epochWorkers s s.currentEpoch).length = cfg.targetCount
      ∧ (epochWorkers s e).length = cfg.targetCount
  | .draining_old e =>
      e = s.currentEpoch + 1
      ∧ (∀ w ∈ s.workers,
          (w.epoch = s.currentEpoch ∨ w.epoch = e) ∧ w.wstate = .ready)
      ∧ (epochWorkers s s.currentEpoch).length = cfg.targetCount
      ∧ (epochWorkers s e).length = cfg.targetCount
  | .terminating_old e =>
      e = s.currentEpoch + 1
      ∧ (∀ w ∈ s.workers,
          (w.epoch = s.currentEpoch
            ∧ (w.wstate = .draining ∨ w.wstate = .stopped ∨ w.wstate = .crashed))
          ∨ (w.epoch = e ∧ w.wstate = .ready))
      ∧ (epochWorkers s e).length = cfg.targetCount

/-- The inductive invariant of the restart state machine. -/
def inv (cfg : Config) (s : SupState) : Prop :=
  idsOk s ∧ invCoord cfg s s.coord

/-! ### The ListenerSet `bind` contract -/

/-- Modelled from the spec: a Listener — a configured address plus a
bound, listening socket handle. -/
structure Listener where
  addr : String
  sock : Nat
  deriving Repr, DecidableEq

/-- Modelled from the spec: `BindError` — the combined failure reporting
every requested address that was already in use or had permission
denied. -/
inductive BindError where
  | bindFailed (addrs : List String)
  deriving Repr, DecidableEq

/-- The observable result of `bind`: the sockets left open once the call
returns, and either the bound ListenerSet or the combined failure. -/
structure BindResult where
  openSockets : List Listener
  outcome : Except BindError (List Listener)
  deriving Repr

/-- Modelled from the spec: the worker loop of `bind(addresses)` — opens
and binds each requested address in order; on an unavailable address
(already in use, or permission denied: `avail` is false) it closes every
socket opened so far and reports the combined `BindError` naming every
unavailable address. -/
def bindAux (avail : String → Bool) :
    List String → List Listener → BindResult
  | [], acc => ⟨acc, .ok acc⟩
  | a :: rest, acc =>
    if avail a then
      bindAux avail rest (acc ++ [⟨a, acc.length⟩])
    else
      ⟨[], .error (.bindFailed (a :: rest.filter (fun b => !avail b)))⟩

/-- Modelled from the spec: `bind(addresses) -> ListenerSet`, starting
from no open sockets. -/
def bind (avail : String → Bool) (addresses : List String) : BindResult :=
  bindAux avail addresses []

/-! ### The HealthMonitor -/

/-- Modelled from the spec: a worker as observed by the HealthMonitor —
its lifecycle state together with its HealthRecord (last-seen heartbeat
time and consecutive-miss count). -/
structure HWorker where
  id : Nat
  wstate : WState
  lastHeartbeat : Nat
  misses : Nat
  deriving Repr, DecidableEq

/-- Modelled from the spec: stats events emitted to the StatsSink. -/
inductive StatsEvent where
  | workerCrashed (id : Nat)
  deriving Repr, DecidableEq

/-- Modelled from the spec: one HealthMonitor poll of one worker at time
`now`.  Only workers in state `ready` or `draining` are examined: the
time since the last heartbeat is compared against the miss threshold; a
miss increments the consecutive-miss count, a heartbeat within the
threshold resets it, and the third consecutive miss marks the worker
`crashed` and emits a stats event. -/
def pollWorker (threshold now : Nat) (w : HWorker) :
    HWorker × List StatsEvent :=
  if w.wstate = .ready ∨ w.wstate = .draining then
    if threshold < now - w.lastHeartbeat then
      if 3 ≤ w.misses + 1 then
        ({ w with misses := w.misses + 1, wstate := .crashed },
          [.workerCrashed w.id])
      else ({ w with misses := w.misses + 1 }, [])
    else ({ w with misses := 0 }, [])
  else (w, [])

/-! ### Concrete scenarios (pool of 2 workers, minimum 1) -/

/-- A concrete configuration: 2 workers, configured minimum 1. -/
def exampleConfig : Config := ⟨1, 2⟩

/-- A complete successful restart of the 2-worker pool. -/
def fullRestartEvents : List Event :=
  [.trigger, .spawnNew, .workerReady 2, .workerReady 3,
    .beginDrainOld, .requestDrainOld, .workerStopped 0, .workerStopped 1,
    .finishRestart]

/-- The pool after a rolled-back restart: identical to the initial pool
(the fresh-id counter has advanced past the reaped epoch-1 workers). -/
def rollbackState : SupState :=
  ⟨[⟨0, 0, .ready⟩, ⟨1, 0, .ready⟩], 0, .idle, 4⟩

/-- The example pool mid-restart, with every new-epoch worker ready. -/
def waitingReadyState : SupState :=
  run exampleConfig (initState exampleConfig)
    [.trigger, .spawnNew, .workerReady 2, .workerReady 3]

/-- The successor of `waitingReadyState` under `beginDrainOld`. -/
def drainingOldState : SupState :=
  ⟨[⟨0, 0, .ready⟩, ⟨1, 0, .ready⟩, ⟨2, 1, .ready⟩, ⟨3, 1, .ready⟩], 0,
    .draining_old 1, 4⟩

/-- The pool right after a reload is accepted from the initial state. -/
def spawningState : SupState :=
  ⟨[⟨0, 0, .ready⟩, ⟨1, 0, .ready⟩], 0, .spawning_new 1, 2⟩

/-- A concrete address-availability environment: every address is
bindable except "busy". -/
def availExample : String → Bool := fun a => a != "busy"

/-! ### Lemmas about the worker-update functions -/

theorem markReady_id (i e : Nat) (w : Worker) : (markReady i e w).id = w.id := by
  unfold markReady; split <;> rfl

theorem markReady_epoch (i e : Nat) (w : Worker) :
    (markReady i e w).epoch = w.epoch := by
  unfold markReady; split <;> rfl

theorem markDraining_id (e : Nat) (w : Worker) :
    (markDraining e w).id = w.id := by
  unfold markDraining; split <;> rfl

theorem markDraining_epoch (e : Nat) (w : Worker) :
    (markDraining e w).epoch = w.epoch := by
  unfold markDraining; split <;> rfl

theorem markStopped_id (i e : Nat) (w : Worker) :
    (markStopped i e w).id = w.id := by
  unfold markStopped; split <;> rfl

theorem markStopped_epoch (i e : Nat) (w : Worker) :
    (markStopped i e w).epoch = w.epoch := by
  unfold markStopped; split <;> rfl

theorem markCrashed_id (i e : Nat) (w : Worker) :
    (markCrashed i e w).id = w.id := by
  unfold markCrashed; split <;> rfl

theorem markCrashed_epoch (i e : Nat) (w : Worker) :
    (markCrashed i e w).epoch = w.epoch := by
  unfold markCrashed; split <;> rfl

theorem length_filter_map (f : Worker → Worker) (p : Worker → Bool)
    (l : List Worker) (hf : ∀ w, p (f w) = p w) :
    ((l.map f).filter p).length = (l.filter p).length := by
  rw [← List.countP_eq_length_filter, ← List.countP_eq_length_filter,
    List.countP_map]
  refine List.countP_congr ?_
  intro w _
  simp [Function.comp, hf]

theorem map_worker_id (f : Worker → Worker) (l : List Worker)
    (hf : ∀ w, (f w).id = w.id) :
    (l.map f).map Worker.id = l.map Worker.id := by
  rw [List.map_map]
  exact List.map_congr_left (fun w _ => hf w)

/-- The invariant holds in the healthy initial state. -/
theorem inv_init (cfg : Config) : inv cfg (initState cfg) := by
  refine ⟨⟨?_, ?_⟩, ?_, ?_⟩
  · dsimp only [initState]
    rw [List.map_map]
    exact (List.nodup_range cfg.targetCount).map (fun a b h => by simpa using h)
  · intro w hw
    simp [initState] at hw
    obtain ⟨i, hi, rfl⟩ := hw
    simpa [initState] using hi
  · intro w hw
    simp [initState] at hw
    obtain ⟨i, _, rfl⟩ := hw
    exact ⟨rfl, rfl⟩
  · simp [initState]

/-! ### Preservation of the invariant by each event -/

theorem inv_step_trigger (cfg : Config) (s s' : SupState)
    (hinv : inv cfg s) (hs : step cfg .trigger s = some s') : inv cfg s' := by
  obtain ⟨hid, hco⟩ := hinv
  cases hc : s.coord with
  | idle =>
    rw [hc] at hco
    simp only [step, reload, hc, Except.toOption, Option.some.injEq] at hs
    subst hs
    exact ⟨hid, rfl, hco.1, hco.2⟩
  | spawning_new e => simp [step, reload, hc, Except.toOption] at hs
  | waiting_ready e => simp [step, reload, hc, Except.toOption] at hs
  | draining_old e => simp [step, reload, hc, Except.toOption] at hs
  | terminating_old e => simp [step, reload, hc, Except.toOption] at hs

theorem inv_step_spawnNew (cfg : Config) (s s' : SupState)
    (hinv : inv cfg s) (hs : step cfg .spawnNew s = some s') : inv cfg s' := by
  obtain ⟨⟨hnd, hlt⟩, hco⟩ := hinv
  cases hc : s.coord with
  | spawning_new e =>
    rw [hc] at hco
    obtain ⟨he, hpool, hlen⟩ := hco
    simp only [step, hc, Option.some.injEq] at hs
    subst hs
    refine ⟨⟨?_, ?_⟩, he, ?_, ?_, ?_⟩
    · rw [List.map_append, List.map_map]
      refine List.nodup_append.mpr ⟨hnd, ?_, ?_⟩
      · exact (List.nodup_range cfg.targetCount).map (fun a b h => by simpa using h)
      · intro a ha1 ha2
        obtain ⟨w, hw, rfl⟩ := List.mem_map.mp ha1
        simp only [List.mem_map, List.mem_range] at ha2
        obtain ⟨j, hj, hji⟩ := ha2
        have := hlt w hw
        simp only [Function.comp] at hji
        omega
    · intro w hw
      rcases List.mem_append.mp hw with h | h
      · have := hlt w h
        show w.id < s.nextId + cfg.targetCount
        omega
      · obtain ⟨j, hj, rfl⟩ := List.mem_map.mp h
        simp only [List.mem_range] at hj
        show s.nextId + j < s.nextId + cfg.targetCount
        omega
    · intro w hw
      rcases List.mem_append.mp hw with h | h
      · exact Or.inl (hpool w h)
      · obtain ⟨j, _, rfl⟩ := List.mem_map.mp h
        exact Or.inr ⟨rfl, Or.inl rfl⟩
    · show ((s.workers ++ _).filter _).length = _
      rw [List.filter_append]
      have h1 : s.workers.filter (fun w => w.epoch == s.currentEpoch)
          = s.workers := by
        refine List.filter_eq_self.mpr ?_
        intro w hw
        simp [(hpool w hw).1]
      have h2 : ((List.range cfg.targetCount).map
          (fun i => (⟨s.nextId + i, e, .starting⟩ : Worker))).filter
            (fun w => w.epoch == s.currentEpoch) = [] := by
        refine List.filter_eq_nil_iff.mpr ?_
        intro w hw
        obtain ⟨j, _, rfl⟩ := List.mem_map.mp hw
        simp
        omega
      rw [h1, h2, List.append_nil]
      exact hlen
    · show ((s.workers ++ _).filter _).length = _
      rw [List.filter_append]
      have h1 : s.workers.filter (fun w => w.epoch == e) = [] := by
        refine List.filter_eq_nil_iff.mpr ?_
        intro w hw
        have := (hpool w hw).1
        simp [this]
        omega
      have h2 : ((List.range cfg.targetCount).map
          (fun i => (⟨s.nextId + i, e, .starting⟩ : Worker))).filter
            (fun w => w.epoch == e)
          = (List.range cfg.targetCount).map
            (fun i => (⟨s.nextId + i, e, .starting⟩ : Worker)) := by
        refine List.filter_eq_self.mpr ?_
        intro w hw
        obtain ⟨j, _, rfl⟩ := List.mem_map.mp hw
        simp
      rw [h1, h2, List.nil_append, List.length_map, List.length_range]
  | idle => simp [step, hc] at hs
  | waiting_ready e => simp [step, hc] at hs
  | draining_old e => simp [step, hc] at hs
  | terminating_old e => simp [step, hc] at hs

theorem inv_step_workerReady (cfg : Config) (i : Nat) (s s' : SupState)
    (hinv : inv cfg s) (hs : step cfg (.workerReady i) s = some s') :
    inv cfg s' := by
  obtain ⟨⟨hnd, hlt⟩, hco⟩ := hinv
  cases hc : s.coord with
  | waiting_ready e =>
    rw [hc] at hco
    obtain ⟨he, hpool, hlenc, hlene⟩ := hco
    simp only [step, hc, Option.some.injEq] at hs
    subst hs
    refine ⟨⟨?_, ?_⟩, he, ?_, ?_, ?_⟩
    · show ((s.workers.map _).map Worker.id).Nodup
      rw [map_worker_id _ _ (markReady_id i e)]
      exact hnd
    · intro w hw
      obtain ⟨v, hv, rfl⟩ := List.mem_map.mp hw
      show (markReady i e v).id < s.nextId
      rw [markReady_id]
      exact hlt v hv
    · intro w hw
      obtain ⟨v, hv, rfl⟩ := List.mem_map.mp hw
      rcases hpool v hv with ⟨hec, hrd⟩ | ⟨hee, hst⟩
      · have hmr : markReady i e v = v := by
          unfold markReady
          simp [hrd]
        rw [hmr]
        exact Or.inl ⟨hec, hrd⟩
      · unfold markReady
        split
        · exact Or.inr ⟨hee, Or.inr rfl⟩
        · exact Or.inr ⟨hee, hst⟩
    · show ((s.workers.map _).filter _).length = _
      rw [length_filter_map _ _ _ (fun w => by rw [markReady_epoch])]
      exact hlenc
    · show ((s.workers.map _).filter _).length = _
      rw [length_filter_map _ _ _ (fun w => by rw [markReady_epoch])]
      exact hlene
  | idle => simp [step, hc] at hs
  | spawning_new e => simp [step, hc] at hs
  | draining_old e => simp [step, hc] at hs
  | terminating_old e => simp [step, hc] at hs

theorem inv_step_beginDrainOld (cfg : Config) (s s' : SupState)
    (hinv : inv cfg s) (hs : step cfg .beginDrainOld s = some s') :
    inv cfg s' := by
  obtain ⟨hid, hco⟩ := hinv
  cases hc : s.coord with
  | waiting_ready e =>
    rw [hc] at hco
    obtain ⟨he, hpool, hlenc, hlene⟩ := hco
    simp only [step, hc] at hs
    by_cases hae : allEpochReady s e
    · simp only [hae, if_true, Option.some.injEq] at hs
      subst hs
      refine ⟨hid, he, ?_, hlenc, hlene⟩
      intro w hw
      rcases hpool w hw with ⟨hec, hrd⟩ | ⟨hee, _⟩
      · exact ⟨Or.inl hec, hrd⟩
      · refine ⟨Or.inr hee, ?_⟩
        have := List.all_eq_true.mp hae w (List.mem_filter.mpr ⟨hw, by simp [hee]⟩)
        simpa using this
    · simp [hae] at hs
  | idle => simp [step, hc] at hs
  | spawning_new e => simp [step, hc] at hs
  | draining_old e => simp [step, hc] at hs
  | terminating_old e => simp [step, hc] at hs

theorem inv_step_readinessTimeout (cfg : Config) (s s' : SupState)
    (hinv : inv cfg s) (hs : step cfg .readinessTimeout s = some s') :
    inv cfg s' := by
  obtain ⟨⟨hnd, hlt⟩, hco⟩ := hinv
  cases hc : s.coord with
  | waiting_ready e =>
    rw [hc] at hco
    obtain ⟨he, hpool, hlenc, hlene⟩ := hco
    simp only [step, hc] at hs
    by_cases hae : allEpochReady s e
    · simp [hae] at hs
    · rw [if_neg hae, Option.some.injEq] at hs
      subst hs
      refine ⟨⟨?_, ?_⟩, ?_, ?_⟩
      · show ((s.workers.filter _).map Worker.id).Nodup
        exact hnd.sublist ((List.filter_sublist s.workers).map Worker.id)
      · intro w hw
        exact hlt w (List.mem_filter.mp hw).1
      · intro w hw
        obtain ⟨hwl, hne⟩ := List.mem_filter.mp hw
        rcases hpool w hwl with ⟨hec, hrd⟩ | ⟨hee, _⟩
        · exact ⟨hec, hrd⟩
        · simp [hee] at hne
      · show ((s.workers.filter _).length) = _
        have hcong : s.workers.filter (fun w => w.epoch != e)
            = s.workers.filter (fun w => w.epoch == s.currentEpoch) := by
          refine List.filter_congr ?_
          intro w hw
          rcases hpool w hw with ⟨hec, _⟩ | ⟨hee, _⟩
          · simp [hec]
            omega
          · simp [hee]
            omega
        rw [hcong]
        exact hlenc
  | idle => simp [step, hc] at hs
  | spawning_new e => simp [step, hc] at hs
  | draining_old e => simp [step, hc] at hs
  | terminating_old e => simp [step, hc] at hs

theorem inv_step_requestDrainOld (cfg : Config) (s s' : SupState)
    (hinv : inv cfg s) (hs : step cfg .requestDrainOld s = some s') :
    inv cfg s' := by
  obtain ⟨⟨hnd, hlt⟩, hco⟩ := hinv
  cases hc : s.coord with
  | draining_old e =>
    rw [hc] at hco
    obtain ⟨he, hpool, hlenc, hlene⟩ := hco
    simp only [step, hc, Option.some.injEq] at hs
    subst hs
    refine ⟨⟨?_, ?_⟩, he, ?_, ?_⟩
    · show ((s.workers.map _).map Worker.id).Nodup
      rw [map_worker_id _ _ (markDraining_id e)]
      exact hnd
    · intro w hw
      obtain ⟨v, hv, rfl⟩ := List.mem_map.mp hw
      show (markDraining e v).id < s.nextId
      rw [markDraining_id]
      exact hlt v hv
    · intro w hw
      obtain ⟨v, hv, rfl⟩ := List.mem_map.mp hw
      obtain ⟨hor, hrd⟩ := hpool v hv
      rcases hor with hec | hee
      · have hcond : markDraining e v = { v with wstate := .draining } := by
          unfold markDraining
          rw [if_pos]
          simp [hec, hrd]
          omega
        rw [hcond]
        exact Or.inl ⟨hec, Or.inl rfl⟩
      · have hcond : markDraining e v = v := by
          unfold markDraining
          rw [if_neg]
          simp [hee]
        rw [hcond]
        exact Or.inr ⟨hee, hrd⟩
    · show ((s.workers.map _).filter _).length = _
      rw [length_filter_map _ _ _ (fun w => by rw [markDraining_epoch])]
      exact hlene
  | idle => simp [step, hc] at hs
  | spawning_new e => simp [step, hc] at hs
  | waiting_ready e => simp [step, hc] at hs
  | terminating_old e => simp [step, hc] at hs

theorem inv_step_workerStopped (cfg : Config) (i : Nat) (s s' : SupState)
    (hinv : inv cfg s) (hs : step cfg (.workerStopped i) s = some s') :
    inv cfg s' := by
  obtain ⟨⟨hnd, hlt⟩, hco⟩ := hinv
  cases hc : s.coord with
  | terminating_old e =>
    rw [hc] at hco
    obtain ⟨he, hpool, hlene⟩ := hco
    simp only [step, hc, Option.some.injEq] at hs
    subst hs
    refine ⟨⟨?_, ?_⟩, he, ?_, ?_⟩
    · show ((s.workers.map _).map Worker.id).Nodup
      rw [map_worker_id _ _ (markStopped_id i e)]
      exact hnd
    · intro w hw
      obtain ⟨v, hv, rfl⟩ := List.mem_map.mp hw
      show (markStopped i e v).id < s.nextId
      rw [markStopped_id]
      exact hlt v hv
    · intro w hw
      obtain ⟨v, hv, rfl⟩ := List.mem_map.mp hw
      rcases hpool v hv with ⟨hec, hD⟩ | ⟨hee, hrd⟩
      · unfold markStopped
        split
        · exact Or.inl ⟨hec, Or.inr (Or.inl rfl)⟩
        · exact Or.inl ⟨hec, hD⟩
      · have hcond : markStopped i e v = v := by
          unfold markStopped
          rw [if_neg]
          simp [hee]
        rw [hcond]
        exact Or.inr ⟨hee, hrd⟩
    · show ((s.workers.map _).filter _).length = _
      rw [length_filter_map _ _ _ (fun w => by rw [markStopped_epoch])]
      exact hlene
  | idle => simp [step, hc] at hs
  | spawning_new e => simp [step, hc] at hs
  | waiting_ready e => simp [step, hc] at hs
  | draining_old e => simp [step, hc] at hs

theorem inv_step_workerDrainTimeout (cfg : Config) (i : Nat) (s s' : SupState)
    (hinv : inv cfg s) (hs : step cfg (.workerDrainTimeout i) s = some s') :
    inv cfg s' := by
  obtain ⟨⟨hnd, hlt⟩, hco⟩ := hinv
  cases hc : s.coord with
  | terminating_old e =>
    rw [hc] at hco
    obtain ⟨he, hpool, hlene⟩ := hco
    simp only [step, hc, Option.some.injEq] at hs
    subst hs
    refine ⟨⟨?_, ?_⟩, he, ?_, ?_⟩
    · show ((s.workers.map _).map Worker.id).Nodup
      rw [map_worker_id _ _ (markCrashed_id i e)]
      exact hnd
    · intro w hw
      obtain ⟨v, hv, rfl⟩ := List.mem_map.mp hw
      show (markCrashed i e v).id < s.nextId
      rw [markCrashed_id]
      exact hlt v hv
    · intro w hw
      obtain ⟨v, hv, rfl⟩ := List.mem_map.mp hw
      rcases hpool v hv with ⟨hec, hD⟩ | ⟨hee, hrd⟩
      · unfold markCrashed
        split
        · exact Or.inl ⟨hec, Or.inr (Or.inr rfl)⟩
        · exact Or.inl ⟨hec, hD⟩
      · have hcond : markCrashed i e v = v := by
          unfold markCrashed
          rw [if_neg]
          simp [hee]
        rw [hcond]
        exact Or.inr ⟨hee, hrd⟩
    · show ((s.workers.map _).filter _).length = _
      rw [length_filter_map _ _ _ (fun w => by rw [markCrashed_epoch])]
      exact hlene
  | idle => simp [step, hc] at hs
  | spawning_new e => simp [step, hc] at hs
  | waiting_ready e => simp [step, hc] at hs
  | draining_old e => simp [step, hc] at hs

theorem inv_step_finishRestart (cfg : Config) (s s' : SupState)
    (hinv : inv cfg s) (hs : step cfg .finishRestart s = some s') :
    inv cfg s' := by
  obtain ⟨⟨hnd, hlt⟩, hco⟩ := hinv
  cases hc : s.coord with
  | terminating_old e =>
    rw [hc] at hco
    obtain ⟨he, hpool, hlene⟩ := hco
    simp only [step, hc] at hs
    by_cases hall : s.workers.all
        (fun w => w.epoch == e || w.wstate == .stopped || w.wstate == .crashed)
    · rw [if_pos hall, Option.some.injEq] at hs
      subst hs
      refine ⟨⟨?_, ?_⟩, ?_, ?_⟩
      · show ((s.workers.filter _).map Worker.id).Nodup
        exact hnd.sublist ((List.filter_sublist s.workers).map Worker.id)
      · intro w hw
        exact hlt w (List.mem_filter.mp hw).1
      · intro w hw
        obtain ⟨hwl, heq⟩ := List.mem_filter.mp hw
        have heq' : w.epoch = e := by simpa using heq
        refine ⟨heq', ?_⟩
        rcases hpool w hwl with ⟨hec, _⟩ | ⟨_, hrd⟩
        · omega
        · exact hrd
      · exact hlene
    · rw [if_neg hall] at hs
      exact absurd hs (by simp)
  | idle => simp [step, hc] at hs
  | spawning_new e => simp [step, hc] at hs
  | waiting_ready e => simp [step, hc] at hs
  | draining_old e => simp [step, hc] at hs

/-- The invariant is preserved by every enabled event. -/
theorem inv_step (cfg : Config) (ev : Event) (s s' : SupState)
    (hinv : inv cfg s) (hs : step cfg ev s = some s') : inv cfg s' := by
  cases ev with
  | trigger => exact inv_step_trigger cfg s s' hinv hs
  | spawnNew => exact inv_step_spawnNew cfg s s' hinv hs
  | workerReady i => exact inv_step_workerReady cfg i s s' hinv hs
  | beginDrainOld => exact inv_step_beginDrainOld cfg s s' hinv hs
  | readinessTimeout => exact inv_step_readinessTimeout cfg s s' hinv hs
  | requestDrainOld => exact inv_step_requestDrainOld cfg s s' hinv hs
  | workerStopped i => exact inv_step_workerStopped cfg i s s' hinv hs
  | workerDrainTimeout i => exact inv_step_workerDrainTimeout cfg i s s' hinv hs
  | finishRestart => exact inv_step_finishRestart cfg s s' hinv hs

theorem inv_stepOr (cfg : Config) (ev : Event) (s : SupState)
    (hinv : inv cfg s) : inv cfg (stepOr cfg s ev) := by
  unfold stepOr
  cases h : step cfg ev s with
  | none => exact hinv
  | some s' => exact inv_step cfg ev s s' hinv h

theorem inv_run (cfg : Config) (evs : List Event) (s : SupState)
    (hinv : inv cfg s) : inv cfg (run cfg s evs) := by
  induction evs generalizing s with
  | nil => exact hinv
  | cons ev evs ih => exact ih (stepOr cfg s ev) (inv_stepOr cfg ev s hinv)

/-- Every reachable state satisfies the invariant. -/
theorem inv_reachable (cfg : Config) (s : SupState)
    (h : Reachable cfg s) : inv cfg s := by
  obtain ⟨evs, rfl⟩ := h
  exact inv_run cfg evs (initState cfg) (inv_init cfg)

/-! ### Consequences of the invariant -/

/-- In every state satisfying the invariant, at least the target number
of workers is `ready`. -/
theorem inv_readyCount (cfg : Config) (s : SupState) (hinv : inv cfg s) :
    cfg.targetCount ≤ readyCount s := by
  obtain ⟨-, hco⟩ := hinv
  cases hc : s.coord with
  | idle =>
    rw [hc] at hco
    obtain ⟨hpool, hlen⟩ := hco
    unfold readyCount
    rw [List.countP_eq_length.mpr (fun w hw => by simp [(hpool w hw).2])]
    omega
  | spawning_new e =>
    rw [hc] at hco
    obtain ⟨-, hpool, hlen⟩ := hco
    unfold readyCount
    rw [List.countP_eq_length.mpr (fun w hw => by simp [(hpool w hw).2])]
    omega
  | waiting_ready e =>
    rw [hc] at hco
    obtain ⟨he, hpool, hlenc, -⟩ := hco
    unfold readyCount
    have h1 : (epochWorkers s s.currentEpoch).length
        = s.workers.countP (fun w => w.epoch == s.currentEpoch) := by
      rw [List.countP_eq_length_filter]
      rfl
    have h2 : s.workers.countP (fun w => w.epoch == s.currentEpoch)
        ≤ s.workers.countP (fun w => w.wstate == .ready) := by
      refine List.countP_mono_left ?_
      intro w hw hwc
      rcases hpool w hw with ⟨-, hrd⟩ | ⟨hee, -⟩
      · simp [hrd]
      · exfalso
        simp at hwc
        omega
    omega
  | draining_old e =>
    rw [hc] at hco
    obtain ⟨-, hpool, hlenc, -⟩ := hco
    unfold readyCount
    have h1 : (epochWorkers s s.currentEpoch).length ≤ s.workers.length := by
      exact List.length_filter_le _ _
    have h2 : s.workers.countP (fun w => w.wstate == .ready)
        = s.workers.length :=
      List.countP_eq_length.mpr (fun w hw => by simp [(hpool w hw).2])
    omega
  | terminating_old e =>
    rw [hc] at hco
    obtain ⟨he, hpool, hlene⟩ := hco
    unfold readyCount
    have h1 : (epochWorkers s e).length
        = s.workers.countP (fun w => w.epoch == e) := by
      rw [List.countP_eq_length_filter]
      rfl
    have h2 : s.workers.countP (fun w => w.epoch == e)
        ≤ s.workers.countP (fun w => w.wstate == .ready) := by
      refine List.countP_mono_left ?_
      intro w hw hwc
      rcases hpool w hw with ⟨hec, -⟩ | ⟨-, hrd⟩
      · exfalso
        simp at hwc
        omega
      · simp [hrd]
    omega

/-- The only transition into `draining_old` is from `waiting_ready` with
the whole new epoch ready (or the coordinator was already there). -/
theorem drainingOld_entry (cfg : Config) (s s' : SupState) (ev : Event)
    (e : Nat) (hs : step cfg ev s = some s')
    (hdc : s'.coord = .draining_old e) :
    s.coord = .draining_old e
    ∨ (s.coord = .waiting_ready e ∧ allEpochReady s e = true) := by
  cases ev with
  | trigger =>
    cases hc : s.coord <;>
      simp only [step, reload, hc, Except.toOption, Option.some.injEq] at hs
    case idle =>
      subst hs
      simp at hdc
    all_goals simp at hs
  | spawnNew =>
    cases hc : s.coord <;> simp only [step, hc, Option.some.injEq] at hs
    case spawning_new e0 =>
      subst hs
      simp at hdc
    all_goals simp at hs
  | workerReady i =>
    cases hc : s.coord <;> simp only [step, hc, Option.some.injEq] at hs
    case waiting_ready e0 =>
      subst hs
      simp [hc] at hdc
    all_goals simp at hs
  | beginDrainOld =>
    cases hc : s.coord <;> simp only [step, hc] at hs
    case waiting_ready e0 =>
      by_cases hae : allEpochReady s e0
      · rw [if_pos hae, Option.some.injEq] at hs
        subst hs
        have h : e0 = e := by simpa using hdc
        subst h
        exact Or.inr ⟨rfl, hae⟩
      · rw [if_neg hae] at hs
        exact absurd hs (by simp)
    all_goals simp at hs
  | readinessTimeout =>
    cases hc : s.coord <;> simp only [step, hc] at hs
    case waiting_ready e0 =>
      by_cases hae : allEpochReady s e0
      · rw [if_pos hae] at hs
        exact absurd hs (by simp)
      · rw [if_neg hae, Option.some.injEq] at hs
        subst hs
        simp at hdc
    all_goals simp at hs
  | requestDrainOld =>
    cases hc : s.coord <;> simp only [step, hc, Option.some.injEq] at hs
    case draining_old e0 =>
      subst hs
      simp at hdc
    all_goals simp at hs
  | workerStopped i =>
    cases hc : s.coord <;> simp only [step, hc, Option.some.injEq] at hs
    case terminating_old e0 =>
      subst hs
      simp [hc] at hdc
    all_goals simp at hs
  | workerDrainTimeout i =>
    cases hc : s.coord <;> simp only [step, hc, Option.some.injEq] at hs
    case terminating_old e0 =>
      subst hs
      simp [hc] at hdc
    all_goals simp at hs
  | finishRestart =>
    cases hc : s.coord <;> simp only [step, hc] at hs
    case terminating_old e0 =>
      by_cases hall : s.workers.all
          (fun w => w.epoch == e0 || w.wstate == .stopped
            || w.wstate == .crashed)
      · rw [if_pos hall, Option.some.injEq] at hs
        subst hs
        simp at hdc
      · rw [if_neg hall] at hs
        exact absurd hs (by simp)
    all_goals simp at hs

theorem run_cons (cfg : Config) (s : SupState) (ev : Event)
    (evs : List Event) :
    run cfg s (ev :: evs) = run cfg (stepOr cfg s ev) evs := rfl

/-- Running only `workerReady` events from `waiting_ready e` leaves every
worker of other epochs untouched and only mutates epoch-`e` workers. -/
theorem run_readies (cfg : Config) (e : Nat) (is : List Nat)
    (olds Q : List Worker) (t : SupState)
    (ht : t.coord = .waiting_ready e) (hw : t.workers = olds ++ Q)
    (holds : ∀ w ∈ olds, w.epoch ≠ e) (hQ : ∀ w ∈ Q, w.epoch = e) :
    ∃ Q', (run cfg t (is.map Event.workerReady)).workers = olds ++ Q'
      ∧ (∀ w ∈ Q', w.epoch = e)
      ∧ (run cfg t (is.map Event.workerReady)).coord = .waiting_ready e
      ∧ (run cfg t (is.map Event.workerReady)).currentEpoch
          = t.currentEpoch := by
  induction is generalizing t Q with
  | nil => exact ⟨Q, hw, hQ, ht, rfl⟩
  | cons i is ih =>
    rw [List.map_cons, run_cons]
    have hstep : stepOr cfg t (.workerReady i)
        = { t with workers := t.workers.map (markReady i e) } := by
      unfold stepOr
      simp [step, ht]
    rw [hstep]
    have holdsmap : olds.map (markReady i e) = olds := by
      have : olds.map (markReady i e) = olds.map id := by
        refine List.map_congr_left ?_
        intro w hwm
        unfold markReady
        have : (w.epoch == e) = false := by
          simp [holds w hwm]
        simp [this]
      simpa using this
    refine ih (Q.map (markReady i e))
      { t with workers := t.workers.map (markReady i e) } ht ?_ ?_
    · show t.workers.map (markReady i e) = _
      rw [hw, List.map_append, holdsmap]
    · intro w hwm
      obtain ⟨v, hv, rfl⟩ := List.mem_map.mp hwm
      rw [markReady_epoch]
      exact hQ v hv

/-- `bindAux` is all-or-nothing, for any accumulator of already-open
sockets. -/
theorem bindAux_spec (avail : String → Bool) (addresses : List String)
    (acc : List Listener) :
    ((∀ a ∈ addresses, avail a = true) →
      ∃ ls, bindAux avail addresses acc = ⟨acc ++ ls, .ok (acc ++ ls)⟩
        ∧ ls.map Listener.addr = addresses)
    ∧ ((∃ a ∈ addresses, avail a = false) →
      (bindAux avail addresses acc).openSockets = []
      ∧ ∃ bad, (bindAux avail addresses acc).outcome
            = .error (.bindFailed bad)
        ∧ bad ≠ []) := by
  induction addresses generalizing acc with
  | nil =>
    constructor
    · intro _
      exact ⟨[], by simp [bindAux], rfl⟩
    · rintro ⟨a, ha, -⟩
      exact absurd ha (List.not_mem_nil a)
  | cons a rest ih =>
    constructor
    · intro hall
      have ha : avail a = true := hall a (List.mem_cons_self a rest)
      have hrest : ∀ b ∈ rest, avail b = true :=
        fun b hb => hall b (List.mem_cons_of_mem a hb)
      obtain ⟨ls, hbind, hmap⟩ := (ih (acc ++ [⟨a, acc.length⟩])).1 hrest
      refine ⟨⟨a, acc.length⟩ :: ls, ?_, ?_⟩
      · show bindAux avail (a :: rest) acc = _
        unfold bindAux
        rw [if_pos ha, hbind]
        simp
      · simp [hmap]
    · rintro ⟨b, hb, hbf⟩
      by_cases ha : avail a = true
      · have hbrest : b ∈ rest := by
          rcases List.mem_cons.mp hb with rfl | h
          · rw [ha] at hbf
            exact absurd hbf (by simp)
          · exact h
        obtain ⟨h1, bad, h2, h3⟩ := (ih (acc ++ [⟨a, acc.length⟩])).2
          ⟨b, hbrest, hbf⟩
        constructor
        · show (bindAux avail (a :: rest) acc).openSockets = []
          unfold bindAux
          rw [if_pos ha]
          exact h1
        · refine ⟨bad, ?_, h3⟩
          show (bindAux avail (a :: rest) acc).outcome = _
          unfold bindAux
          rw [if_pos ha]
          exact h2
      · have ha' : avail a = false := by
          cases h : avail a
          · rfl
          · exact absurd h ha
        constructor
        · show (bindAux avail (a :: rest) acc).openSockets = []
          unfold bindAux
          rw [if_neg (by simp [ha'])]
        · refine ⟨a :: rest.filter (fun b => !avail b), ?_, by simp⟩
          show (bindAux avail (a :: rest) acc).outcome = _
          unfold bindAux
          rw [if_neg (by simp [ha'])]

end Tillicum

namespace Tillicum

/-- C1: The packaging manifest declares package name "tillicum",
version "0.8.1", exactly one runtime dependency ('ostrich'), and the
repository contains no source file besides the manifest. -/
theorem setup_manifest_declares :
    tillicumSetup.name = "tillicum"
    ∧ tillicumSetup.version = "0.8.1"
    ∧ tillicumSetup.install_requires = ["ostrich"]
    ∧ tillicumSetup.install_requires.length = 1
    ∧ repositoryFiles = ["setup.py"] := by
  refine ⟨rfl, rfl, rfl, rfl, rfl⟩

/-- C2: `find_packages()` finds no package directory in the repository
(there is no `__init__.py` anywhere), so the built distribution exports
no importable packages. -/
theorem setup_no_packages :
    find_packages repositoryFiles = [] ∧ tillicumSetup.packages = [] := by
  constructor <;> decide

/-- C10: test-time requirements (nose, mock, coverage, with
`test_suite = "nose.collector"`) are separated from the runtime
requirements, which consist of 'ostrich' alone. -/
theorem setup_test_requirements_separate :
    tillicumSetup.tests_require = ["nose", "mock", "coverage"]
    ∧ tillicumSetup.test_suite = "nose.collector"
    ∧ tillicumSetup.install_requires = ["ostrich"]
    ∧ ∀ d ∈ tillicumSetup.tests_require, d ∉ tillicumSetup.install_requires := by
  refine ⟨rfl, rfl, rfl, ?_⟩
  decide

/-- C3: during every restart, the coordinator transitions from
`waiting_ready` to `draining_old` only once every new-epoch worker has
reported ready; in no reachable state is an old-epoch worker draining (or
torn down) while a new-epoch worker is not ready; and a readiness
failure leaves the old epoch intact (same old-epoch workers, same current
epoch, coordinator back to idle). -/
theorem restart_drain_ordering (cfg : Config) (s s' : SupState) (ev : Event)
    (e : Nat) (hr : Reachable cfg s) :
    (step cfg ev s = some s' → s'.coord = .draining_old e →
      s.coord = .draining_old e
      ∨ (s.coord = .waiting_ready e ∧ allEpochReady s e = true))
    ∧ (∀ w ∈ s.workers,
        (w.wstate = .draining ∨ w.wstate = .stopped ∨ w.wstate = .crashed) →
        allEpochReady s (s.currentEpoch + 1) = true)
    ∧ (s.coord = .waiting_ready e → step cfg .readinessTimeout s = some s' →
        epochWorkers s' s.currentEpoch = epochWorkers s s.currentEpoch
        ∧ s'.currentEpoch = s.currentEpoch ∧ s'.coord = .idle) := by
  obtain ⟨-, hco⟩ := inv_reachable cfg s hr
  refine ⟨fun hs hdc => drainingOld_entry cfg s s' ev e hs hdc, ?_, ?_⟩
  · intro w hw hd
    cases hc : s.coord with
    | idle =>
      rw [hc] at hco
      have h2 := (hco.1 w hw).2
      rcases hd with h | h | h <;> simp [h] at h2
    | spawning_new e0 =>
      rw [hc] at hco
      have h2 := (hco.2.1 w hw).2
      rcases hd with h | h | h <;> simp [h] at h2
    | waiting_ready e0 =>
      rw [hc] at hco
      rcases hco.2.1 w hw with ⟨-, h2⟩ | ⟨-, h2 | h2⟩ <;>
        rcases hd with h | h | h <;> simp [h] at h2
    | draining_old e0 =>
      rw [hc] at hco
      have h2 := (hco.2.1 w hw).2
      rcases hd with h | h | h <;> simp [h] at h2
    | terminating_old e0 =>
      rw [hc] at hco
      obtain ⟨he, hpool, -⟩ := hco
      refine List.all_eq_true.mpr ?_
      intro v hv
      obtain ⟨hvl, hve⟩ := List.mem_filter.mp hv
      rcases hpool v hvl with ⟨hec, -⟩ | ⟨-, hrd⟩
      · exfalso
        simp at hve
        omega
      · simp [hrd]
  · intro hcw hs
    rw [hcw] at hco
    obtain ⟨he, hpool, -, -⟩ := hco
    simp only [step, hcw] at hs
    by_cases hae : allEpochReady s e
    · rw [if_pos hae] at hs
      exact absurd hs (by simp)
    · rw [if_neg hae, Option.some.injEq] at hs
      subst hs
      refine ⟨?_, rfl, rfl⟩
      show (s.workers.filter _).filter _ = s.workers.filter _
      rw [List.filter_filter]
      refine List.filter_congr ?_
      intro w hw
      rcases hpool w hw with ⟨hec, -⟩ | ⟨hee, -⟩
      · have h1 : w.epoch ≠ e := by omega
        simp [hec, h1]
        omega
      · have h1 : w.epoch ≠ s.currentEpoch := by omega
        simp [hee, h1]
        omega

/-- C3 witness: the ordering guarantees instantiated on the concrete
2-worker restart scenario. -/
theorem restart_drain_ordering_witness :
    (step exampleConfig .beginDrainOld waitingReadyState
        = some drainingOldState →
      drainingOldState.coord = .draining_old 1 →
      waitingReadyState.coord = .draining_old 1
      ∨ (waitingReadyState.coord = .waiting_ready 1
          ∧ allEpochReady waitingReadyState 1 = true))
    ∧ (∀ w ∈ waitingReadyState.workers,
        (w.wstate = .draining ∨ w.wstate = .stopped ∨ w.wstate = .crashed) →
        allEpochReady waitingReadyState
          (waitingReadyState.currentEpoch + 1) = true)
    ∧ (waitingReadyState.coord = .waiting_ready 1 →
        step exampleConfig .readinessTimeout waitingReadyState
          = some drainingOldState →
        epochWorkers drainingOldState waitingReadyState.currentEpoch
            = epochWorkers waitingReadyState waitingReadyState.currentEpoch
        ∧ drainingOldState.currentEpoch = waitingReadyState.currentEpoch
        ∧ drainingOldState.coord = .idle) :=
  restart_drain_ordering exampleConfig waitingReadyState drainingOldState
    .beginDrainOld 1
    ⟨[.trigger, .spawnNew, .workerReady 2, .workerReady 3], rfl⟩

/-- C4: in every reachable state of any restart sequence, the number of
`ready` workers never drops below the configured minimum (assuming the
configured pool size meets the minimum). -/
theorem min_ready_invariant (cfg : Config) (s : SupState)
    (hmin : cfg.minWorkers ≤ cfg.targetCount) (hr : Reachable cfg s) :
    cfg.minWorkers ≤ readyCount s :=
  le_trans hmin (inv_readyCount cfg s (inv_reachable cfg s hr))

/-- C4 witness: the minimum-ready invariant evaluated after a complete
successful restart of the 2-worker pool. -/
theorem min_ready_invariant_witness :
    exampleConfig.minWorkers ≤ exampleConfig.targetCount
    ∧ exampleConfig.minWorkers
        ≤ readyCount (run exampleConfig (initState exampleConfig)
            fullRestartEvents) :=
  ⟨by decide,
    min_ready_invariant exampleConfig _ (by decide) ⟨fullRestartEvents, rfl⟩⟩

/-- C5: a restart that fails readiness within the timeout leaves the pool
identical — same worker handles, same current epoch — to before the
restart was triggered, with the coordinator back to idle. -/
theorem rollback_completeness (cfg : Config) (s t' : SupState)
    (is : List Nat) (hinv : inv cfg s) (hidle : s.coord = .idle)
    (hfail : step cfg .readinessTimeout
        (run cfg s (.trigger :: .spawnNew :: is.map Event.workerReady))
      = some t') :
    t'.workers = s.workers ∧ t'.currentEpoch = s.currentEpoch
    ∧ t'.coord = .idle := by
  obtain ⟨-, hco⟩ := hinv
  rw [hidle] at hco
  obtain ⟨hpool, -⟩ := hco
  rw [run_cons, run_cons] at hfail
  have h1 : stepOr cfg s .trigger
      = { s with coord := .spawning_new (s.currentEpoch + 1) } := by
    unfold stepOr
    simp [step, reload, hidle, Except.toOption]
  rw [h1] at hfail
  have h2 : stepOr cfg { s with coord := .spawning_new (s.currentEpoch + 1) }
      .spawnNew
      = { s with
          workers := s.workers ++ (List.range cfg.targetCount).map
            (fun i => ⟨s.nextId + i, s.currentEpoch + 1, .starting⟩)
          nextId := s.nextId + cfg.targetCount
          coord := .waiting_ready (s.currentEpoch + 1) } := by
    unfold stepOr
    simp [step]
  rw [h2] at hfail
  obtain ⟨Q', hw', hQ', hcoord', hcur'⟩ := run_readies cfg
    (s.currentEpoch + 1) is s.workers
    ((List.range cfg.targetCount).map
      (fun i => ⟨s.nextId + i, s.currentEpoch + 1, .starting⟩))
    { s with
      workers := s.workers ++ (List.range cfg.targetCount).map
        (fun i => ⟨s.nextId + i, s.currentEpoch + 1, .starting⟩)
      nextId := s.nextId + cfg.targetCount
      coord := .waiting_ready (s.currentEpoch + 1) }
    rfl rfl
    (fun w hw => by have := (hpool w hw).1; omega)
    (fun w hw => by
      obtain ⟨j, -, rfl⟩ := List.mem_map.mp hw
      rfl)
  set t := run cfg
    { s with
      workers := s.workers ++ (List.range cfg.targetCount).map
        (fun i => ⟨s.nextId + i, s.currentEpoch + 1, .starting⟩)
      nextId := s.nextId + cfg.targetCount
      coord := .waiting_ready (s.currentEpoch + 1) }
    (is.map Event.workerReady) with hteq
  simp only [step, hcoord'] at hfail
  by_cases hae : allEpochReady t (s.currentEpoch + 1)
  · rw [if_pos hae] at hfail
    exact absurd hfail (by simp)
  · rw [if_neg hae, Option.some.injEq] at hfail
    subst hfail
    refine ⟨?_, hcur', rfl⟩
    show t.workers.filter _ = s.workers
    rw [hw', List.filter_append]
    have hA : s.workers.filter
        (fun w => w.epoch != s.currentEpoch + 1) = s.workers := by
      refine List.filter_eq_self.mpr ?_
      intro w hw
      have := (hpool w hw).1
      simp
      omega
    have hB : Q'.filter (fun w => w.epoch != s.currentEpoch + 1) = [] := by
      refine List.filter_eq_nil_iff.mpr ?_
      intro w hw
      simp [hQ' w hw]
    rw [hA, hB, List.append_nil]

/-- C5 witness: a rollback in the concrete 2-worker pool (one of the two
new workers never reports ready) restores exactly the initial pool. -/
theorem rollback_completeness_witness :
    step exampleConfig .readinessTimeout
        (run exampleConfig (initState exampleConfig)
          (.trigger :: .spawnNew :: ([2] : List Nat).map Event.workerReady))
      = some rollbackState
    ∧ rollbackState.workers = (initState exampleConfig).workers
    ∧ rollbackState.currentEpoch = (initState exampleConfig).currentEpoch
    ∧ rollbackState.coord = .idle :=
  ⟨by decide,
    rollback_completeness exampleConfig (initState exampleConfig)
      rollbackState [2] (inv_init exampleConfig) rfl (by decide)⟩

/-- C6: a reload request while the coordinator is not idle is rejected
with `RestartInProgress`, the error is surfaced to the caller, and the
supervisor state — hence the in-flight restart — is untouched. -/
theorem restart_in_progress_rejected (cfg : Config) (s : SupState)
    (h : s.coord ≠ .idle) :
    reload s = .error .restartInProgress ∧ stepOr cfg s .trigger = s := by
  constructor
  · cases hc : s.coord
    case idle => exact absurd hc h
    all_goals simp [reload, hc]
  · unfold stepOr
    cases hc : s.coord
    case idle => exact absurd hc h
    all_goals simp [step, reload, hc, Except.toOption]

/-- C6 witness: a reload issued while the example pool is draining its
old epoch is rejected and changes nothing. -/
theorem restart_in_progress_rejected_witness :
    drainingOldState.coord ≠ .idle
    ∧ reload drainingOldState = .error .restartInProgress
    ∧ stepOr exampleConfig drainingOldState .trigger = drainingOldState :=
  ⟨by decide,
    restart_in_progress_rejected exampleConfig drainingOldState (by decide)⟩

/-- C7: a reload accepted in a reachable state allocates RestartEpoch =
previous + 1; every worker handle belongs to exactly one epoch (equal
identities have equal epochs); and at most two epochs have live workers
at any reachable instant. -/
theorem epoch_allocation_and_liveness (cfg : Config) (s s' : SupState)
    (hr : Reachable cfg s) :
    (reload s = .ok s' → s'.coord = .spawning_new (s.currentEpoch + 1))
    ∧ (∀ w₁ ∈ s.workers, ∀ w₂ ∈ s.workers,
        w₁.id = w₂.id → w₁.epoch = w₂.epoch)
    ∧ (∃ e₁ e₂, ∀ w ∈ s.workers, w.epoch = e₁ ∨ w.epoch = e₂) := by
  obtain ⟨⟨hnd, -⟩, hco⟩ := inv_reachable cfg s hr
  refine ⟨?_, ?_, ?_⟩
  · intro h
    cases hc : s.coord
    case idle =>
      simp only [reload, hc, Except.ok.injEq] at h
      subst h
      rfl
    all_goals simp [reload, hc] at h
  · intro w₁ h1 w₂ h2 hid
    rw [List.inj_on_of_nodup_map hnd h1 h2 hid]
  · refine ⟨s.currentEpoch, s.currentEpoch + 1, ?_⟩
    intro w hw
    cases hc : s.coord with
    | idle =>
      rw [hc] at hco
      exact Or.inl (hco.1 w hw).1
    | spawning_new e0 =>
      rw [hc] at hco
      exact Or.inl (hco.2.1 w hw).1
    | waiting_ready e0 =>
      rw [hc] at hco
      obtain ⟨he, hpool, -⟩ := hco
      rcases hpool w hw with ⟨h, -⟩ | ⟨h, -⟩
      · exact Or.inl h
      · exact Or.inr (by omega)
    | draining_old e0 =>
      rw [hc] at hco
      obtain ⟨he, hpool, -⟩ := hco
      rcases (hpool w hw).1 with h | h
      · exact Or.inl h
      · exact Or.inr (by omega)
    | terminating_old e0 =>
      rw [hc] at hco
      obtain ⟨he, hpool, -⟩ := hco
      rcases hpool w hw with ⟨h, -⟩ | ⟨h, -⟩
      · exact Or.inl h
      · exact Or.inr (by omega)

/-- C7 witness: epoch allocation and the two-live-epochs bound on the
initial 2-worker pool and its accepted reload. -/
theorem epoch_allocation_and_liveness_witness :
    (reload (initState exampleConfig) = .ok spawningState →
      spawningState.coord
        = .spawning_new ((initState exampleConfig).currentEpoch + 1))
    ∧ (∀ w₁ ∈ (initState exampleConfig).workers,
        ∀ w₂ ∈ (initState exampleConfig).workers,
        w₁.id = w₂.id → w₁.epoch = w₂.epoch)
    ∧ (∃ e₁ e₂, ∀ w ∈ (initState exampleConfig).workers,
        w.epoch = e₁ ∨ w.epoch = e₂) :=
  epoch_allocation_and_liveness exampleConfig (initState exampleConfig)
    spawningState ⟨[], rfl⟩

/-- C8: `bind(addresses)` is all-or-nothing — with every address
available it binds exactly the requested addresses, and with any address
unavailable it leaves no socket open and fails with a single combined
`BindError`. -/
theorem bind_all_or_nothing (avail : String → Bool)
    (addresses : List String) :
    ((∀ a ∈ addresses, avail a = true) →
      ∃ ls, bind avail addresses = ⟨ls, .ok ls⟩
        ∧ ls.map Listener.addr = addresses)
    ∧ ((∃ a ∈ addresses, avail a = false) →
      (bind avail addresses).openSockets = []
      ∧ ∃ bad, (bind avail addresses).outcome = .error (.bindFailed bad)
        ∧ bad ≠ []) := by
  have h := bindAux_spec avail addresses []
  constructor
  · intro hall
    obtain ⟨ls, h1, h2⟩ := h.1 hall
    refine ⟨ls, ?_, h2⟩
    show bindAux avail addresses [] = _
    simpa using h1
  · exact h.2

/-- C8 witness: binding two free addresses succeeds in full; binding a
list containing the busy address opens nothing and reports the combined
failure. -/
theorem bind_all_or_nothing_witness :
    ((∀ a ∈ ["tcp:80", "tcp:443"], availExample a = true)
      ∧ ∃ ls, bind availExample ["tcp:80", "tcp:443"] = ⟨ls, .ok ls⟩
          ∧ ls.map Listener.addr = ["tcp:80", "tcp:443"])
    ∧ ((∃ a ∈ ["tcp:80", "busy"], availExample a = false)
      ∧ ((bind availExample ["tcp:80", "busy"]).openSockets = []
        ∧ ∃ bad, (bind availExample ["tcp:80", "busy"]).outcome
              = .error (.bindFailed bad)
          ∧ bad ≠ [])) :=
  ⟨⟨by decide,
      (bind_all_or_nothing availExample ["tcp:80", "tcp:443"]).1 (by decide)⟩,
    ⟨by decide,
      (bind_all_or_nothing availExample ["tcp:80", "busy"]).2 (by decide)⟩⟩

/-- C9: the HealthMonitor marks a `ready` or `draining` worker `crashed`
exactly when the heartbeat is missed and the consecutive-miss count
reaches three, emitting a stats event at that moment; workers in any
other state are left untouched. -/
theorem health_monitor_crash_rule (threshold now : Nat) (w : HWorker) :
    ((w.wstate = .ready ∨ w.wstate = .draining) →
      (((pollWorker threshold now w).1.wstate = .crashed)
        ↔ (threshold < now - w.lastHeartbeat ∧ 3 ≤ w.misses + 1))
      ∧ ((pollWorker threshold now w).1.wstate = .crashed →
          (pollWorker threshold now w).2 = [.workerCrashed w.id]))
    ∧ (w.wstate ≠ .ready ∧ w.wstate ≠ .draining →
        pollWorker threshold now w = (w, [])) := by
  constructor
  · intro h
    unfold pollWorker
    rw [if_pos h]
    by_cases h1 : threshold < now - w.lastHeartbeat
    · rw [if_pos h1]
      by_cases h2 : 3 ≤ w.misses + 1
      · rw [if_pos h2]
        exact ⟨by simp [h1, h2], fun _ => rfl⟩
      · rw [if_neg h2]
        constructor
        · constructor
          · intro hcr
            rcases h with h | h <;> simp [h] at hcr
          · rintro ⟨-, h2'⟩
            exact absurd h2' h2
        · intro hcr
          rcases h with h | h <;> simp [h] at hcr
    · rw [if_neg h1]
      constructor
      · constructor
        · intro hcr
          rcases h with h | h <;> simp [h] at hcr
        · rintro ⟨h1', -⟩
          exact absurd h1' h1
      · intro hcr
        rcases h with h | h <;> simp [h] at hcr
  · rintro ⟨h1, h2⟩
    unfold pollWorker
    rw [if_neg (not_or.mpr ⟨h1, h2⟩)]

/-- C9 witness: a ready worker with two prior consecutive misses and a
stale heartbeat is marked crashed on the third miss, with the stats
event emitted. -/
theorem health_monitor_crash_rule_witness :
    ((HWorker.mk 7 .ready 0 2).wstate = .ready
        ∨ (HWorker.mk 7 .ready 0 2).wstate = .draining →
      (((pollWorker 5 100 (HWorker.mk 7 .ready 0 2)).1.wstate = .crashed)
        ↔ (5 < 100 - (HWorker.mk 7 .ready 0 2).lastHeartbeat
            ∧ 3 ≤ (HWorker.mk 7 .ready 0 2).misses + 1))
      ∧ ((pollWorker 5 100 (HWorker.mk 7 .ready 0 2)).1.wstate = .crashed →
          (pollWorker 5 100 (HWorker.mk 7 .ready 0 2)).2
            = [.workerCrashed 7]))
    ∧ ((HWorker.mk 7 .ready 0 2).wstate ≠ .ready
        ∧ (HWorker.mk 7 .ready 0 2).wstate ≠ .draining →
        pollWorker 5 100 (HWorker.mk 7 .ready 0 2)
          = (HWorker.mk 7 .ready 0 2, [])) :=
  health_monitor_crash_rule 5 100 (HWorker.mk 7 .ready 0 2)

end Tillicum
